import Mathlib

/-!
Verification of the rag-finance-engine core against its design document.

The JavaScript sources are embedded shallowly:
* `serialize`, `makeEmbedding`, `embedTable`, `runIndexer` model `embedAll.js`
  (the indexing pipeline);
* `loadHistory`, `saveHistory`, `fetchContext`, `answer` model `queryBot.js`
  (the query-time orchestrator).

External effects (Supabase reads, the OpenAI embeddings / chat endpoints, the
file system) are passed in as explicit parameters: a lookup function, an
attempt-indexed call outcome, or an `Except`-valued result, so each code path
of the JavaScript maps to a computable Lean function.
-/

namespace RagFinance

/-- A JavaScript value as it appears in a Supabase row object: a string, an
integer-valued number, `null`, or `undefined` (absent property). -/
inductive Value where
  | vstr (s : String)
  | vnum (n : Int)
  | vnull
  | vundefined
deriving DecidableEq, Repr

/-- JS template-literal interpolation of a value (the semantics of
a template placeholder in backtick strings). -/
def Value.render : Value → String
  | .vstr s => s
  | .vnum n => toString n
  | .vnull => "null"
  | .vundefined => "undefined"

/-- Escape one character for a JSON string literal (quote and backslash). -/
def escapeChar (c : Char) : String :=
  if c = '\\' then "\\\\"
  else if c = '"' then "\\\""
  else String.singleton c

/-- Model of `JSON.stringify` on a `Value`, as used by the generic serializer branch.
`JSON.stringify(undefined)` is `undefined`, which interpolates to the text
`undefined`. -/
def jsonStringify : Value → String
  | .vstr s => "\"" ++ String.join (s.toList.map escapeChar) ++ "\""
  | .vnum n => toString n
  | .vnull => "null"
  | .vundefined => "undefined"

/-- JS `String.prototype.toUpperCase` on ASCII table names: uppercase each
character. -/
def jsToUpper (s : String) : String :=
  String.mk (s.data.map Char.toUpper)

/-- A database row: its properties in insertion order (`Object.entries`). -/
abbrev Row := List (String × Value)

/-- Property access `row.k`: the first binding of `k`, `undefined` if absent. -/
def getVal (r : Row) (k : String) : Value :=
  match r.find? (fun p => p.fst = k) with
  | some p => p.snd
  | none => .vundefined

/-- The `name`/`type` projection of an `accounts` row, as returned by the
`select('name, type')` foreign-key lookup in `serialize`. -/
structure Account where
  name : String
  type : String
deriving DecidableEq, Repr

/-- Model of `serialize(table, row)` from `embedAll.js`: a deterministic,
pipe-delimited fact string.  `lookupAccount` is the Supabase
`accounts` lookup keyed by `row.account_id`; its failure (`acctErr`)
is rethrown, aborting the row. -/
def serialize (lookupAccount : Value → Except String Account)
    (table : String) (row : Row) : Except String String :=
  if table = "account_snapshots" then
    match lookupAccount (getVal row "account_id") with
    | .error e => .error e
    | .ok acct =>
      .ok ("Account Balance | account_name=\"" ++ acct.name ++ "\" | " ++
        "account_type=\"" ++ acct.type ++ "\" | as_of=\"" ++
        (getVal row "snapshot_date").render ++ "\" | " ++
        "cash_balance=" ++ (getVal row "balance").render)
  else if table = "monthly_expense_snapshots" then
    .ok ("Monthly Expense Snapshot | " ++
      "period=\"" ++ (getVal row "period_start").render ++ " to " ++
      (getVal row "period_end").render ++ "\" | " ++
      "total_expense=" ++ (getVal row "total_expense").render)
  else if table = "financial_kb" then
    .ok ("Formula | title=\"" ++ (getVal row "title").render ++
      "\" | expression=\"" ++ (getVal row "content").render ++ "\"")
  else
    .ok (jsToUpper table ++ " | " ++
      String.intercalate " | "
        ((row.filter (fun p => ¬ (p.fst = "metadata" ∨ p.fst = "updated_at"))).map
          (fun p => p.fst ++ "=" ++ jsonStringify p.snd)))

/-- The balance-snapshot row of Scenario A. -/
def scenarioARow : Row :=
  [("id", .vnum 1), ("user_id", .vstr "u1"), ("account_id", .vnum 7),
   ("snapshot_date", .vstr "2025-03-31"), ("balance", .vnum 15900)]

/-- The foreign-key lookup result of Scenario A: account 7 is the cash
account named Main Checking. -/
def scenarioALookup : Value → Except String Account :=
  fun _ => .ok { name := "Main Checking", type := "cash" }

/-- C1: serializing the Scenario A balance-snapshot row under the
balance-snapshot template yields exactly the claimed string, and `serialize`
is deterministic: two calls on identical input (same lookup results) yield
identical output. -/
theorem C1_serialize_scenarioA :
    serialize scenarioALookup "account_snapshots" scenarioARow =
      .ok ("Account Balance | account_name=\"Main Checking\" | " ++
        "account_type=\"cash\" | as_of=\"2025-03-31\" | cash_balance=15900") ∧
    ∀ (lk : Value → Except String Account) (t : String) (r : Row),
      serialize lk t r = serialize lk t r :=
  ⟨rfl, fun _ _ _ => rfl⟩

/-! ## History store (`loadHistory` / `saveHistory` in `queryBot.js`) -/

/-- One chat turn `{role, content}`. -/
structure ChatTurn where
  role : String
  content : String
deriving DecidableEq, Repr

/-- The parsed content of `chat_history.json`: a JS object keyed by user id,
modelled as an association list in property-insertion order. -/
abbrev HistoryState := List (String × List ChatTurn)

/-- The constant `HISTORY_LIMIT` from `queryBot.js`: keep the last 10 turns. -/
def HISTORY_LIMIT : Nat := 10

/-- JS `list.slice(-n)` for positive `n`: the last `min n (length list)`
elements, in order. -/
def lastN (n : Nat) (l : List α) : List α :=
  l.drop (l.length - n)

/-- JS property read `all[userId]` on the parsed history object. -/
def lookupScope : HistoryState → String → Option (List ChatTurn)
  | [], _ => none
  | p :: rest, u => if p.fst = u then some p.snd else lookupScope rest u

/-- JS property write `all[userId] = h`: replace the existing binding in
place, or append a new one (JS object key-insertion order). -/
def setScope : HistoryState → String → List ChatTurn → HistoryState
  | [], u, h => [(u, h)]
  | p :: rest, u, h =>
    if p.fst = u then (u, h) :: rest else p :: setScope rest u h

/-- Model of `loadHistory(userId)`: parse the file (`none` models a missing or
unparseable file, whose exception the `catch` turns into `[]`), then
`all[userId]?.slice(-HISTORY_LIMIT) ?? []`. -/
def loadHistory (file : Option HistoryState) (userId : String) : List ChatTurn :=
  match file with
  | none => []
  | some all =>
    match lookupScope all userId with
    | none => []
    | some h => lastN HISTORY_LIMIT h

/-- Model of `saveHistory(userId, history)`: read the whole file (an unreadable or
unparseable file silently becomes the empty object), set
`all[userId] = history.slice(-HISTORY_LIMIT)`, and return the full state
that is written back. -/
def saveHistory (file : Option HistoryState) (userId : String)
    (history : List ChatTurn) : HistoryState :=
  setScope (file.getD []) userId (lastN HISTORY_LIMIT history)

theorem lookupScope_setScope_same (s : HistoryState) (u : String)
    (h : List ChatTurn) : lookupScope (setScope s u h) u = some h := by
  induction s with
  | nil => simp [setScope, lookupScope]
  | cons p rest ih =>
    by_cases hp : p.fst = u
    · simp [setScope, lookupScope, hp]
    · simp [setScope, lookupScope, hp, ih]

theorem lookupScope_setScope_other (s : HistoryState) (u v : String)
    (h : List ChatTurn) (hne : v ≠ u) :
    lookupScope (setScope s u h) v = lookupScope s v := by
  have huv : ¬ u = v := fun he => hne he.symm
  induction s with
  | nil => simp [setScope, lookupScope, huv]
  | cons p rest ih =>
    by_cases hp : p.fst = u
    · have hpv : ¬ p.fst = v := fun he => huv (hp.symm.trans he)
      simp [setScope, lookupScope, hp, hpv, huv]
    · simp [setScope, lookupScope, hp, ih]

theorem lastN_of_length_eq_add {l : List α} {n k : Nat}
    (h : l.length = n + k) : lastN n l = l.drop k := by
  simp [lastN, h, Nat.add_sub_cancel_left]

/-- C3: after saving a history of `HISTORY_LIMIT + k` turns for a scope, the
persisted state holds exactly the most recent `HISTORY_LIMIT` turns for that
scope (the `k` oldest dropped), and `loadHistory` on the written state
returns exactly those turns in order. -/
theorem C3_history_bound (file : Option HistoryState) (u : String)
    (turns : List ChatTurn) (k : Nat)
    (hlen : turns.length = HISTORY_LIMIT + k) :
    lookupScope (saveHistory file u turns) u = some (turns.drop k) ∧
    loadHistory (some (saveHistory file u turns)) u = turns.drop k := by
  have hset : lookupScope (saveHistory file u turns) u
      = some (lastN HISTORY_LIMIT turns) :=
    lookupScope_setScope_same _ _ _
  have hlast : lastN HISTORY_LIMIT turns = turns.drop k :=
    lastN_of_length_eq_add hlen
  refine ⟨hset.trans (by rw [hlast]), ?_⟩
  have hdroplen : (turns.drop k).length = HISTORY_LIMIT := by
    simp [List.length_drop, hlen]
  simp only [loadHistory, hset, hlast]
  simp [lastN, hdroplen]

/-- Twelve concrete turns for the Scenario D witness. -/
def demoTurns : List ChatTurn :=
  (List.range 12).map (fun i => { role := "user", content := toString i })

/-- Witness for C3 at Scenario D: scope `u1`, 12 turns, N = 10; the stored
history is exactly the last 10 turns, the 2 oldest dropped. -/
theorem C3_history_bound_witness :
    demoTurns.length = HISTORY_LIMIT + 2 ∧
    lookupScope (saveHistory (some []) "u1" demoTurns) "u1" =
      some (demoTurns.drop 2) ∧
    loadHistory (some (saveHistory (some []) "u1" demoTurns)) "u1" =
      demoTurns.drop 2 :=
  ⟨by decide, C3_history_bound (some []) "u1" demoTurns 2 (by decide)⟩

/-- C8: `saveHistory` is a read-modify-write of the full multi-user state
that replaces only the entry for the saved scope: the saved scope maps to
the trimmed turns, and every other scope's persisted history is unchanged. -/
theorem C8_save_frame (all : HistoryState) (u : String)
    (turns : List ChatTurn) :
    lookupScope (saveHistory (some all) u turns) u =
      some (lastN HISTORY_LIMIT turns) ∧
    ∀ v : String, v ≠ u →
      lookupScope (saveHistory (some all) u turns) v = lookupScope all v := by
  refine ⟨lookupScope_setScope_same _ _ _, fun v hne => ?_⟩
  exact lookupScope_setScope_other _ _ _ _ hne

/-- Witness for C8: saving scope `u1` into a two-scope state leaves scope
`u2`'s history untouched. -/
theorem C8_save_frame_witness :
    lookupScope
        (saveHistory (some [("u2", [{ role := "user", content := "hi" }])])
          "u1" demoTurns) "u2" =
      lookupScope [("u2", [{ role := "user", content := "hi" }])] "u2" :=
  (C8_save_frame [("u2", [{ role := "user", content := "hi" }])] "u1"
    demoTurns).2 "u2" (by decide)

/-- C10: when the persisted history file is missing or unparseable at save
time, `saveHistory` silently starts from the empty state: the written state
is exactly the singleton for the saved scope, and every other scope's
previously persisted history is absent from it. -/
theorem C10_save_after_parse_failure (u : String) (turns : List ChatTurn) :
    saveHistory none u turns = [(u, lastN HISTORY_LIMIT turns)] ∧
    ∀ v : String, v ≠ u → lookupScope (saveHistory none u turns) v = none := by
  refine ⟨rfl, fun v hne => ?_⟩
  have huv : ¬ u = v := fun he => hne he.symm
  simp [saveHistory, setScope, lookupScope, huv]

/-- Witness for C10: after a failed read, the written state holds only scope
`u1`; scope `u2`'s history is gone. -/
theorem C10_save_after_parse_failure_witness :
    lookupScope (saveHistory none "u1" demoTurns) "u2" = none :=
  (C10_save_after_parse_failure "u1" demoTurns).2 "u2" (by decide)

/-! ## Context assembly (`fetchContext` in `queryBot.js`) -/

/-- One `financial_kb` row as selected by `fetchContext`:
`select('title, content')`. -/
structure KBEntry where
  title : String
  content : String
deriving DecidableEq, Repr

/-- The formulas section: `defs.map(d => `**title**: content`).join('\n')`. -/
def kbText (defs : List KBEntry) : String :=
  String.intercalate "\n" (defs.map (fun d => "**" ++ d.title ++ "**: " ++ d.content))

/-- The data section: `rows.map(r => r.content).join('\n---\n')`, on the
`content` fields returned by the `match_documents` RPC. -/
def dataText (rows : List String) : String :=
  String.intercalate "\n---\n" rows

/-- Model of `fetchContext(question)`: read the whole `financial_kb` table, embed the
question, call the `match_documents` RPC, and merge both sections into one
block.  The KB read and the retriever call (question embedding plus RPC) are
passed in as their outcomes; each `if err throw` rethrows, so a failure of
either aborts with no block. -/
def fetchContext (kbRes : Except String (List KBEntry))
    (retrRes : Except String (List String)) : Except String String :=
  match kbRes with
  | .error e => .error e
  | .ok defs =>
    match retrRes with
    | .error e => .error e
    | .ok rows =>
      .ok (String.intercalate "\n"
        ["--- FINANCIAL FORMULAS ---", kbText defs, "",
         "--- USER DATA ROWS ---", dataText rows])

/-- C4: on success the context block is exactly the two sections — the full,
unfiltered KB glossary (every KB row, mapped verbatim) followed by the
verbatim content of every retrieved Document joined with the `\n---\n` row
separator; and if the KB read or the Retriever call fails, no block is
produced at all. -/
theorem C4_context_assembly :
    (∀ (defs : List KBEntry) (rows : List String),
      fetchContext (.ok defs) (.ok rows) =
        .ok ("--- FINANCIAL FORMULAS ---" ++ "\n" ++ kbText defs ++
          "\n" ++ "\n" ++ "--- USER DATA ROWS ---" ++ "\n" ++ dataText rows)) ∧
    (∀ (e : String) (retrRes : Except String (List String)),
      fetchContext (.error e) retrRes = .error e) ∧
    (∀ (defs : List KBEntry) (e : String),
      fetchContext (.ok defs) (.error e) = .error e) := by
  refine ⟨fun defs rows => ?_, fun e retrRes => rfl, fun defs e => rfl⟩
  simp only [fetchContext, String.intercalate, String.intercalate.go]
  rw [String.append_empty]

/-! ## Orchestrator (`answer` in `queryBot.js`) -/

/-- The fixed system policy message of `answer`, joined with single spaces,
containing the literal refusal string. -/
def policyPrompt : String :=
  String.intercalate " "
    ["You are a senior financial analyst assistant, expert in accounting.",
     "For **financial** questions, you may ONLY use the supplied context.",
     "If information is missing, respond exactly:",
     "\"I’m a financial assistant and can only provide answers based on the financial data available to me.\"",
     "For **meta** questions about your previous answers (e.g. \"why did you …\"),",
     "you may explain your reasoning even if that reasoning isn’t in the context.",
     "- Always cite which context rows or formulas you used when giving numbers."]

/-- Drop leading whitespace characters from a character list. -/
def dropLeadingWS : List Char → List Char
  | [] => []
  | c :: cs => if c.isWhitespace then dropLeadingWS cs else c :: cs

/-- JS `String.prototype.trim`: strip whitespace from both ends. -/
def jsTrim (s : String) : String :=
  String.mk ((dropLeadingWS ((dropLeadingWS s.data).reverse)).reverse)

/-- The ordered message sequence of `answer`: prior history turns, the
policy message, the assembled context, then the question. -/
def buildMessages (history : List ChatTurn) (context question : String) :
    List ChatTurn :=
  history ++
    [{ role := "system", content := policyPrompt },
     { role := "system", content := context },
     { role := "user", content := question }]

/-- Model of `answer(question)` from `queryBot.js`.  `ctxRes` is the outcome of
`fetchContext`, `llm` the chat-completions call on the built message list
(its `.content`, before the `.trim()` the code applies), and `writeRes` the
outcome of the `fs.writeFileSync` inside `saveHistory` (the only statement
of `saveHistory` outside its try/catch).  On success the result carries the
trimmed reply and the history state written to disk; any failure rethrows
out of `answer`. -/
def answer (ctxRes : Except String String)
    (llm : List ChatTurn → Except String String)
    (writeRes : Except String Unit)
    (file : Option HistoryState) (userId question : String) :
    Except String (String × HistoryState) :=
  match ctxRes with
  | .error e => .error e
  | .ok context =>
    let history := loadHistory file userId
    match llm (buildMessages history context question) with
    | .error e => .error e
    | .ok raw =>
      let assistantReply := jsTrim raw
      match writeRes with
      | .error e => .error e
      | .ok _ =>
        .ok (assistantReply,
          saveHistory file userId
            (history ++
              [{ role := "user", content := question },
               { role := "assistant", content := assistantReply }]))

/-- A model call that successfully produces an answer. -/
def c5Llm : List ChatTurn → Except String String :=
  fun _ => .ok "The cash balance is 15900."

/-- Counterexample to C5: the model produced an answer, but the history
write fails with `EACCES`; `answer` returns that failure — the caller does
not receive the produced answer text. -/
theorem C5_counterexample :
    answer (.ok "ctx") c5Llm (.error "EACCES") none "u1" "What is my balance?"
      = .error "EACCES" ∧
    answer (.ok "ctx") c5Llm (.ok ()) none "u1" "What is my balance?"
      = .ok ("The cash balance is 15900.",
          [("u1",
            [{ role := "user", content := "What is my balance?" },
             { role := "assistant", content := "The cash balance is 15900." }])]) :=
  ⟨rfl, rfl⟩

/-- C5 amended: when the model has produced an answer but the history write
fails, `answer` propagates the write failure to the caller and the produced
answer is discarded — the `fs.writeFileSync` in `saveHistory` is outside its
try/catch, and `answer` has no handler around `saveHistory`. -/
theorem C5_amended_save_failure_aborts (context : String)
    (llm : List ChatTurn → Except String String) (e : String)
    (file : Option HistoryState) (userId question : String)
    (hok : ∃ raw, llm (buildMessages (loadHistory file userId) context question)
      = .ok raw) :
    answer (.ok context) llm (.error e) file userId question = .error e := by
  obtain ⟨raw, hraw⟩ := hok
  simp [answer, hraw]

/-- Witness for the amended C5 at the counterexample's input. -/
theorem C5_amended_save_failure_aborts_witness :
    (∃ raw, c5Llm (buildMessages (loadHistory none "u1") "ctx"
        "What is my balance?") = .ok raw) ∧
    answer (.ok "ctx") c5Llm (.error "EACCES") none "u1" "What is my balance?"
      = .error "EACCES" :=
  ⟨⟨"The cash balance is 15900.", rfl⟩,
   C5_amended_save_failure_aborts "ctx" c5Llm "EACCES" none "u1"
     "What is my balance?" ⟨"The cash balance is 15900.", rfl⟩⟩

/-! ## Embedder (`makeEmbedding` in `embedAll.js`) -/

/-- The embedding vector a response item carries (`res.data[0].embedding`).
Component values are opaque to the pipeline; they are modelled as
integers. -/
abbrev Vec := List Int

/-- One item of the OpenAI embeddings response `data` array. -/
structure EmbeddingItem where
  embedding : Vec
deriving DecidableEq, Repr

/-- The OpenAI embeddings response: its `data` array. -/
structure EmbeddingResponse where
  data : List EmbeddingItem
deriving DecidableEq, Repr

/-- Model of `makeEmbedding(text)`: one `openai.embeddings.create` call, then
`res.data[0].embedding`.  `attempts n` is the outcome the embeddings
endpoint would give to the `n`-th call attempt for this text; the code
performs exactly one call, so only `attempts 0` is consulted.  An empty
`data` array makes `res.data[0].embedding` a JS `TypeError`. -/
def makeEmbedding (attempts : Nat → Except String EmbeddingResponse) :
    Except String Vec :=
  match attempts 0 with
  | .error e => .error e
  | .ok res =>
    match res.data with
    | [] => .error "TypeError: Cannot read properties of undefined"
    | item :: _ => .ok item.embedding

/-- A transiently failing embeddings endpoint: the first call attempt fails
with a connection reset, every retry would succeed. -/
def transientAttempts : Nat → Except String EmbeddingResponse :=
  fun n => if n = 0 then .error "ECONNRESET"
    else .ok { data := [{ embedding := [1] }] }

/-- Counterexample to C6: on a transient failure (first attempt fails, any
retry would succeed), `makeEmbedding` fails with the raw first-attempt error
instead of retrying — so no backoff, no bounded retry, and no
UpstreamServiceError naming the offending row/table. -/
theorem C6_counterexample :
    makeEmbedding transientAttempts = .error "ECONNRESET" := rfl

/-- C6 amended: `makeEmbedding` performs exactly one call attempt — its
result is fully determined by the first attempt's outcome, and a failed
first attempt propagates unchanged (no retry, no wrapping). -/
theorem C6_amended_single_attempt :
    (∀ att att' : Nat → Except String EmbeddingResponse,
      att 0 = att' 0 → makeEmbedding att = makeEmbedding att') ∧
    (∀ (att : Nat → Except String EmbeddingResponse) (e : String),
      att 0 = .error e → makeEmbedding att = .error e) := by
  constructor
  · intro att att' h
    simp [makeEmbedding, h]
  · intro att e h
    simp [makeEmbedding, h]

/-- Witness for the amended C6: the transient endpoint and an endpoint that
always fails agree on attempt 0, so `makeEmbedding` treats them alike and
returns the first attempt's error. -/
theorem C6_amended_single_attempt_witness :
    transientAttempts 0 = .error "ECONNRESET" ∧
    makeEmbedding transientAttempts = .error "ECONNRESET" :=
  ⟨rfl, C6_amended_single_attempt.2 transientAttempts "ECONNRESET" rfl⟩

/-! ## Indexer (`embedTable` / `run` in `embedAll.js`) -/

/-- One row of the `documents` table:
`{user_id, source_table, source_id, content, embedding}`. -/
structure Document where
  user_id : Value
  source_table : String
  source_id : Value
  content : String
  embedding : Vec
deriving DecidableEq, Repr

/-- The upsert key: `onConflict: ['source_table', 'source_id']`. -/
def docKey (d : Document) : String × Value :=
  (d.source_table, d.source_id)

/-- The `documents` table, in row-insertion order. -/
abbrev DocStore := List Document

/-- The database unique constraint on `(source_table, source_id)`: no two
stored documents share the upsert key. -/
def UniqueKeys (s : DocStore) : Prop :=
  (s.map docKey).Nodup

instance (s : DocStore) : Decidable (UniqueKeys s) := by
  unfold UniqueKeys
  infer_instance

/-- Postgres upsert with `onConflict: ['source_table', 'source_id']`: if a
stored row has the new row's key, overwrite it in place; otherwise insert
at the end. -/
def upsert (s : DocStore) (d : Document) : DocStore :=
  if ∃ e ∈ s, docKey e = docKey d then
    s.map (fun e => if docKey e = docKey d then d else e)
  else s ++ [d]

/-- The per-row body of the `embedTable` loop: serialize the row, embed the
fact string (`attemptsOf content` is the embeddings endpoint's outcome
stream for that text), and build the document record that is upserted.
Either failure is thrown. -/
def stepDoc (lookup : Value → Except String Account)
    (attemptsOf : String → Nat → Except String EmbeddingResponse)
    (table : String) (r : Row) : Except String Document :=
  match serialize lookup table r with
  | .error e => .error e
  | .ok content =>
    match makeEmbedding (attemptsOf content) with
    | .error e => .error e
    | .ok v =>
      .ok { user_id := getVal r "user_id", source_table := table,
            source_id := getVal r "id", content := content, embedding := v }

/-- Model of `embedTable(table)` from `embedAll.js`, after the row fetch: process the
fetched rows in order, upserting each produced document; a serializer or
embedder failure is thrown immediately.  The result is the final state of
the `documents` table together with the error that aborted the run, if
any — earlier upserts stay committed. -/
def embedTable (lookup : Value → Except String Account)
    (attemptsOf : String → Nat → Except String EmbeddingResponse)
    (table : String) : List Row → DocStore → DocStore × Option String
  | [], s => (s, none)
  | r :: rest, s =>
    match stepDoc lookup attemptsOf table r with
    | .error e => (s, some e)
    | .ok d => embedTable lookup attemptsOf table rest (upsert s d)

/-- The fixed table list `TABLES_TO_EMBED`. -/
def TABLES_TO_EMBED : List String :=
  ["profiles", "accounts", "categories", "transactions", "budgets",
   "customers", "invoices", "vendors", "bills", "account_snapshots",
   "monthly_expense_snapshots", "financial_kb"]

/-- Model of `run()` from `embedAll.js`: process the given tables sequentially
(`rowsOf t` is the row set the store returns for table `t`); the first
table whose `embedTable` throws aborts the whole run. -/
def runIndexer (lookup : Value → Except String Account)
    (attemptsOf : String → Nat → Except String EmbeddingResponse)
    (rowsOf : String → List Row) :
    List String → DocStore → DocStore × Option String
  | [], s => (s, none)
  | t :: ts, s =>
    match embedTable lookup attemptsOf t (rowsOf t) s with
    | (s', none) => runIndexer lookup attemptsOf rowsOf ts s'
    | (s', some e) => (s', some e)

/-! ### Upsert lemmas -/

theorem upsert_keys_of_mem {s : DocStore} {d : Document}
    (h : ∃ e ∈ s, docKey e = docKey d) :
    (upsert s d).map docKey = s.map docKey := by
  simp only [upsert, if_pos h, List.map_map]
  refine List.map_congr_left (fun e he => ?_)
  by_cases hk : docKey e = docKey d
  · simp [Function.comp, hk]
  · simp [Function.comp, hk]

theorem upsert_keys_of_not_mem {s : DocStore} {d : Document}
    (h : ¬ ∃ e ∈ s, docKey e = docKey d) :
    (upsert s d).map docKey = s.map docKey ++ [docKey d] := by
  simp [upsert, if_neg h]

theorem uniqueKeys_upsert {s : DocStore} {d : Document}
    (h : UniqueKeys s) : UniqueKeys (upsert s d) := by
  unfold UniqueKeys at h ⊢
  by_cases hm : ∃ e ∈ s, docKey e = docKey d
  · rw [upsert_keys_of_mem hm]
    exact h
  · rw [upsert_keys_of_not_mem hm]
    have hnot : docKey d ∉ s.map docKey := by
      intro hmemk
      obtain ⟨e, he, hk⟩ := List.mem_map.mp hmemk
      exact hm ⟨e, he, hk⟩
    rw [List.nodup_append]
    refine ⟨h, List.nodup_singleton _, ?_⟩
    intro a ha hb
    exact hnot ((List.mem_singleton.mp hb) ▸ ha)

theorem length_upsert_of_mem {s : DocStore} {d : Document}
    (h : ∃ e ∈ s, docKey e = docKey d) :
    (upsert s d).length = s.length := by
  simp [upsert, if_pos h]

theorem mem_upsert_self (s : DocStore) (d : Document) : d ∈ upsert s d := by
  unfold upsert
  by_cases hm : ∃ e ∈ s, docKey e = docKey d
  · rw [if_pos hm]
    obtain ⟨e, he, hk⟩ := hm
    refine List.mem_map.mpr ⟨e, he, ?_⟩
    rw [if_pos hk]
  · rw [if_neg hm]
    exact List.mem_append_right _ (List.mem_singleton_self d)

theorem mem_upsert_of_key_ne {s : DocStore} {d d' : Document}
    (hmem : d' ∈ s) (hk : docKey d' ≠ docKey d) : d' ∈ upsert s d := by
  unfold upsert
  by_cases hm : ∃ e ∈ s, docKey e = docKey d
  · rw [if_pos hm]
    refine List.mem_map.mpr ⟨d', hmem, ?_⟩
    rw [if_neg hk]
  · rw [if_neg hm]
    exact List.mem_append_left _ hmem

theorem upsert_of_mem_unique {s : DocStore} {d : Document}
    (huniq : UniqueKeys s) (hmem : d ∈ s) : upsert s d = s := by
  have hinj := List.inj_on_of_nodup_map (f := docKey) (l := s) huniq
  have hm : ∃ e ∈ s, docKey e = docKey d := ⟨d, hmem, rfl⟩
  unfold upsert
  rw [if_pos hm]
  have hcongr : ∀ e ∈ s, (if docKey e = docKey d then d else e) = e := by
    intro e he
    by_cases hk : docKey e = docKey d
    · rw [if_pos hk]
      exact (hinj he hmem hk).symm
    · rw [if_neg hk]
  rw [List.map_congr_left hcongr]
  simp

/-! ### Indexing-loop lemmas -/

theorem stepDoc_key {lookup : Value → Except String Account}
    {attemptsOf : String → Nat → Except String EmbeddingResponse}
    {table : String} {r : Row} {d : Document}
    (h : stepDoc lookup attemptsOf table r = .ok d) :
    docKey d = (table, getVal r "id") := by
  unfold stepDoc at h
  cases hser : serialize lookup table r with
  | error e => rw [hser] at h; simp at h
  | ok content =>
    rw [hser] at h
    simp only at h
    cases hemb : makeEmbedding (attemptsOf content) with
    | error e => rw [hemb] at h; simp at h
    | ok v =>
      rw [hemb] at h
      simp only at h
      injection h with h2
      rw [← h2]
      rfl

theorem embedTable_mem_preserve {lookup : Value → Except String Account}
    {attemptsOf : String → Nat → Except String EmbeddingResponse}
    {table : String} :
    ∀ {rows : List Row} {s s' : DocStore},
      embedTable lookup attemptsOf table rows s = (s', none) →
      ∀ d' : Document, d' ∈ s →
        (∀ r ∈ rows, docKey d' ≠ (table, getVal r "id")) → d' ∈ s' := by
  intro rows
  induction rows with
  | nil =>
    intro s s' h d' hmem _
    simp only [embedTable] at h
    cases h
    exact hmem
  | cons r rest ih =>
    intro s s' h d' hmem hkeys
    simp only [embedTable] at h
    cases hstep : stepDoc lookup attemptsOf table r with
    | error e => rw [hstep] at h; simp at h
    | ok d =>
      rw [hstep] at h
      simp only at h
      have hdkey : docKey d = (table, getVal r "id") := stepDoc_key hstep
      have hne : docKey d' ≠ docKey d := by
        rw [hdkey]
        exact hkeys r (List.mem_cons_self r rest)
      exact ih h d' (mem_upsert_of_key_ne hmem hne)
        (fun x hx => hkeys x (List.mem_cons_of_mem r hx))

theorem embedTable_post {lookup : Value → Except String Account}
    {attemptsOf : String → Nat → Except String EmbeddingResponse}
    {table : String} :
    ∀ {rows : List Row} {s s' : DocStore},
      embedTable lookup attemptsOf table rows s = (s', none) →
      UniqueKeys s →
      (rows.map (fun r => getVal r "id")).Nodup →
      UniqueKeys s' ∧
      ∀ r ∈ rows, ∃ d, stepDoc lookup attemptsOf table r = .ok d ∧ d ∈ s' := by
  intro rows
  induction rows with
  | nil =>
    intro s s' h huniq _
    simp only [embedTable] at h
    cases h
    exact ⟨huniq, by simp⟩
  | cons r rest ih =>
    intro s s' h huniq hids
    simp only [embedTable] at h
    simp only [List.map_cons, List.nodup_cons] at hids
    cases hstep : stepDoc lookup attemptsOf table r with
    | error e => rw [hstep] at h; simp at h
    | ok d =>
      rw [hstep] at h
      simp only at h
      have huniq' : UniqueKeys (upsert s d) := uniqueKeys_upsert huniq
      obtain ⟨huniqFin, hrest⟩ := ih h huniq' hids.2
      refine ⟨huniqFin, fun x hx => ?_⟩
      rcases List.mem_cons.mp hx with hx | hx
      · rw [hx]
        refine ⟨d, hstep, ?_⟩
        refine embedTable_mem_preserve h d (mem_upsert_self s d) ?_
        intro y hy
        rw [stepDoc_key hstep]
        intro hcontra
        have hid : getVal r "id" = getVal y "id" := congrArg Prod.snd hcontra
        have hnotin := hids.1
        rw [hid] at hnotin
        exact hnotin (List.mem_map_of_mem _ hy)
      · exact hrest x hx

theorem embedTable_of_all_stored {lookup : Value → Except String Account}
    {attemptsOf : String → Nat → Except String EmbeddingResponse}
    {table : String} :
    ∀ {rows : List Row} {s : DocStore},
      UniqueKeys s →
      (∀ r ∈ rows, ∃ d, stepDoc lookup attemptsOf table r = .ok d ∧ d ∈ s) →
      embedTable lookup attemptsOf table rows s = (s, none) := by
  intro rows
  induction rows with
  | nil => intro s _ _; rfl
  | cons r rest ih =>
    intro s huniq hall
    obtain ⟨d, hstep, hmem⟩ := hall r (List.mem_cons_self r rest)
    simp only [embedTable, hstep]
    rw [upsert_of_mem_unique huniq hmem]
    exact ih huniq (fun x hx => hall x (List.mem_cons_of_mem r hx))

/-- C2: with the `documents` unique constraint in force and distinct row
ids, a successful indexing run over a table (a) preserves the one-Document-
per-`(source_table, source_id)` invariant and stores each row's document;
(b) re-running over the unchanged rows returns the byte-identical store
(so contents, embeddings and the Document count are unchanged); and (c)
re-indexing a changed row whose key is already stored overwrites in place:
the store keeps its length (no duplicate), keeps unique keys, contains the
new document, and every other key's document survives. -/
theorem C2_indexer_idempotent_upsert
    (lookup : Value → Except String Account)
    (attemptsOf : String → Nat → Except String EmbeddingResponse)
    (table : String) (rows : List Row) (s s₁ : DocStore)
    (huniq : UniqueKeys s)
    (hids : (rows.map (fun r => getVal r "id")).Nodup)
    (hrun : embedTable lookup attemptsOf table rows s = (s₁, none)) :
    UniqueKeys s₁ ∧
    (∀ r ∈ rows, ∃ d, stepDoc lookup attemptsOf table r = .ok d ∧ d ∈ s₁) ∧
    embedTable lookup attemptsOf table rows s₁ = (s₁, none) ∧
    (∀ (r' : Row) (d' : Document),
      stepDoc lookup attemptsOf table r' = .ok d' →
      (∃ e ∈ s₁, docKey e = docKey d') →
      embedTable lookup attemptsOf table [r'] s₁ = (upsert s₁ d', none) ∧
      (upsert s₁ d').length = s₁.length ∧
      UniqueKeys (upsert s₁ d') ∧
      d' ∈ upsert s₁ d' ∧
      ∀ e ∈ s₁, docKey e ≠ docKey d' → e ∈ upsert s₁ d') := by
  obtain ⟨huniq₁, hstored⟩ := embedTable_post hrun huniq hids
  refine ⟨huniq₁, hstored, embedTable_of_all_stored huniq₁ hstored, ?_⟩
  intro r' d' hstep hkey
  refine ⟨by simp [embedTable, hstep], length_upsert_of_mem hkey,
    uniqueKeys_upsert huniq₁, mem_upsert_self s₁ d',
    fun e he hne => mem_upsert_of_key_ne he hne⟩

/-- A one-row `accounts` table for the C2 witness. -/
def c2Rows : List Row :=
  [[("id", .vnum 1), ("user_id", .vstr "u1"), ("name", .vstr "Checking")]]

/-- An embeddings endpoint that always succeeds with vector `[1, 2]`. -/
def c2Attempts : String → Nat → Except String EmbeddingResponse :=
  fun _ _ => .ok { data := [{ embedding := [1, 2] }] }

/-- The document the C2 witness run stores. -/
def c2Doc : Document :=
  { user_id := .vstr "u1", source_table := "accounts", source_id := .vnum 1,
    content := "ACCOUNTS | id=1 | user_id=\"u1\" | name=\"Checking\"",
    embedding := [1, 2] }

/-- Witness for C2: indexing one concrete `accounts` row into an empty
store and re-running leaves the one-document store unchanged. -/
theorem C2_indexer_idempotent_upsert_witness :
    UniqueKeys ([] : DocStore) ∧
    ((c2Rows.map (fun r => getVal r "id")).Nodup) ∧
    embedTable scenarioALookup c2Attempts "accounts" c2Rows [] =
      ([c2Doc], none) ∧
    embedTable scenarioALookup c2Attempts "accounts" c2Rows [c2Doc] =
      ([c2Doc], none) :=
  ⟨by decide, by decide, rfl,
    (C2_indexer_idempotent_upsert scenarioALookup c2Attempts "accounts"
      c2Rows [] [c2Doc] (by decide) (by decide) rfl).2.2.1⟩

/-! ### Fail-fast lemmas -/

theorem embedTable_all_ok {lookup : Value → Except String Account}
    {attemptsOf : String → Nat → Except String EmbeddingResponse}
    {table : String} :
    ∀ {rows : List Row} (s : DocStore),
      (∀ r ∈ rows, ∃ d, stepDoc lookup attemptsOf table r = .ok d) →
      ∃ s', embedTable lookup attemptsOf table rows s = (s', none) := by
  intro rows
  induction rows with
  | nil => intro s _; exact ⟨s, rfl⟩
  | cons r rest ih =>
    intro s hall
    obtain ⟨d, hstep⟩ := hall r (List.mem_cons_self r rest)
    simp only [embedTable, hstep]
    exact ih _ (fun x hx => hall x (List.mem_cons_of_mem r hx))

/-- Row level: if every row before the failing row succeeds and row `r`
fails (serializer or embedder), the table run stops with the failure: the
final store is exactly the store after the successful prefix — no later
row of the table is processed or upserted. -/
theorem embedTable_fail_fast (lookup : Value → Except String Account)
    (attemptsOf : String → Nat → Except String EmbeddingResponse)
    (table : String) :
    ∀ (pre : List Row) (r : Row) (rest : List Row) (s : DocStore) (e : String),
      (∀ x ∈ pre, ∃ d, stepDoc lookup attemptsOf table x = .ok d) →
      stepDoc lookup attemptsOf table r = .error e →
      embedTable lookup attemptsOf table (pre ++ r :: rest) s =
        ((embedTable lookup attemptsOf table pre s).fst, some e) := by
  intro pre
  induction pre with
  | nil =>
    intro r rest s e _ herr
    simp [embedTable, herr]
  | cons x pre' ih =>
    intro r rest s e hall herr
    obtain ⟨d, hstep⟩ := hall x (List.mem_cons_self x pre')
    simp only [List.cons_append, embedTable, hstep]
    exact ih r rest (upsert s d) e
      (fun y hy => hall y (List.mem_cons_of_mem x hy)) herr

/-- Table level: if every table before `t` in the run list succeeds wholly
and table `t`'s run fails, the whole indexing run stops with that failure:
the final store is the failing table's partial store — no later table in
the list is processed. -/
theorem runIndexer_fail_fast (lookup : Value → Except String Account)
    (attemptsOf : String → Nat → Except String EmbeddingResponse)
    (rowsOf : String → List Row) :
    ∀ (tpre : List String) (t : String) (trest : List String)
      (s : DocStore) (e : String),
      (∀ u ∈ tpre, ∀ x ∈ rowsOf u, ∃ d, stepDoc lookup attemptsOf u x = .ok d) →
      (embedTable lookup attemptsOf t (rowsOf t)
        ((runIndexer lookup attemptsOf rowsOf tpre s).fst)).snd = some e →
      runIndexer lookup attemptsOf rowsOf (tpre ++ t :: trest) s =
        ((embedTable lookup attemptsOf t (rowsOf t)
          ((runIndexer lookup attemptsOf rowsOf tpre s).fst)).fst, some e) := by
  intro tpre
  induction tpre with
  | nil =>
    intro t trest s e _ hfail
    simp only [runIndexer, List.nil_append] at hfail ⊢
    cases hemb : embedTable lookup attemptsOf t (rowsOf t) s with
    | mk s' eo =>
      rw [hemb] at hfail
      have heo : eo = some e := hfail
      subst heo
      rfl
  | cons u tpre' ih =>
    intro t trest s e hall hfail
    obtain ⟨s₀, hu⟩ := embedTable_all_ok s (hall u (List.mem_cons_self u tpre'))
    simp only [List.cons_append, runIndexer, hu] at hfail ⊢
    exact ih t trest s₀ e (fun v hv => hall v (List.mem_cons_of_mem u hv)) hfail

/-- C7: a single row's serializer or embedder failure aborts the entire
run.  Row level: at whatever position the failing row sits, the table's
final store is the store after the successful prefix — no later row of
that table is processed or upserted.  Table level: a failing table at any
position of the fixed table list stops the run there — no later table is
processed. -/
theorem C7_fail_fast :
    (∀ (lookup : Value → Except String Account)
       (attemptsOf : String → Nat → Except String EmbeddingResponse)
       (table : String) (pre : List Row) (r : Row) (rest : List Row)
       (s : DocStore) (e : String),
      (∀ x ∈ pre, ∃ d, stepDoc lookup attemptsOf table x = .ok d) →
      stepDoc lookup attemptsOf table r = .error e →
      embedTable lookup attemptsOf table (pre ++ r :: rest) s =
        ((embedTable lookup attemptsOf table pre s).fst, some e)) ∧
    (∀ (lookup : Value → Except String Account)
       (attemptsOf : String → Nat → Except String EmbeddingResponse)
       (rowsOf : String → List Row) (tpre : List String) (t : String)
       (trest : List String) (s : DocStore) (e : String),
      (∀ u ∈ tpre, ∀ x ∈ rowsOf u, ∃ d, stepDoc lookup attemptsOf u x = .ok d) →
      (embedTable lookup attemptsOf t (rowsOf t)
        ((runIndexer lookup attemptsOf rowsOf tpre s).fst)).snd = some e →
      runIndexer lookup attemptsOf rowsOf (tpre ++ t :: trest) s =
        ((embedTable lookup attemptsOf t (rowsOf t)
          ((runIndexer lookup attemptsOf rowsOf tpre s).fst)).fst, some e)) :=
  ⟨embedTable_fail_fast, runIndexer_fail_fast⟩

/-- A lookup whose foreign-key read finds no account row, so serializing
any `account_snapshots` row throws. -/
def failingLookup : Value → Except String Account :=
  fun _ => .error "PGRST116"

/-- A concrete snapshot row for the C7 witness. -/
def c7Row : Row :=
  [("id", .vnum 1), ("user_id", .vstr "u1"), ("account_id", .vnum 7),
   ("snapshot_date", .vstr "2025-03-31"), ("balance", .vnum 15900)]

/-- Witness for C7: with a failing foreign-key lookup, the first
`account_snapshots` row aborts its table run with an empty store (the
second row is never upserted), and the whole indexing run stops at that
table (the following table is never processed). -/
theorem C7_fail_fast_witness :
    stepDoc failingLookup c2Attempts "account_snapshots" c7Row =
      .error "PGRST116" ∧
    embedTable failingLookup c2Attempts "account_snapshots"
      ([] ++ c7Row :: [c7Row]) [] = ([], some "PGRST116") ∧
    runIndexer failingLookup c2Attempts (fun _ => [c7Row])
      ([] ++ "account_snapshots" :: ["monthly_expense_snapshots"]) [] =
      ([], some "PGRST116") :=
  ⟨rfl,
   C7_fail_fast.1 failingLookup c2Attempts "account_snapshots" [] c7Row
     [c7Row] [] "PGRST116" (by simp) rfl,
   C7_fail_fast.2 failingLookup c2Attempts (fun _ => [c7Row]) []
     "account_snapshots" ["monthly_expense_snapshots"] [] "PGRST116"
     (by simp) rfl⟩

end RagFinance
